import Mathlib

/-!
Verification of the math vector/matrix/cases layout core
(`crates/typst-library/src/math/matrix.rs`).

Lengths (`Abs`) are modelled as rational numbers of points.  The external
collaborators that the file consumes only through an interface (the
cell-layout primitive `layout_row`, the aligned-frame conversion, the
generic `stack` utility) are carried as function fields of the ambient
`MathContext`, so that every claim is settled against the control flow and
arithmetic that the source file itself performs.
-/

/-- An absolute length, in points. -/
abbrev Abs := ℚ

/-- A font-relative length (multiples of the current font size),
mirroring `Em` from the geometry layer. -/
structure Em where
  val : ℚ
deriving DecidableEq

/-- Mirrors `Em::new`. -/
def Em.new (v : ℚ) : Em := ⟨v⟩

/-- A ratio, mirroring `Ratio` from the geometry layer. -/
structure Ratio where
  val : ℚ
deriving DecidableEq

/-- Mirrors `Ratio::new`. -/
def Ratio.new (v : ℚ) : Ratio := ⟨v⟩

/-- Mirrors `Ratio::of`: the ratio applied to a length. -/
def Ratio.of (r : Ratio) (a : Abs) : Abs := r.val * a

/-- `const ROW_GAP: Em = Em::new(0.5)` from matrix.rs. -/
def ROW_GAP : Em := Em.new (1/2)

/-- `const COL_GAP: Em = Em::new(0.5)` from matrix.rs. -/
def COL_GAP : Em := Em.new (1/2)

/-- `const VERTICAL_PADDING: Ratio = Ratio::new(0.1)` from matrix.rs. -/
def VERTICAL_PADDING : Ratio := Ratio.new (1/10)

/-- A source span, carried on elements and errors for diagnostics. -/
abbrev Span := ℕ

/-- A layout failure: per the error design it carries the offending
source location. -/
structure LayoutError where
  span : Span
deriving DecidableEq

/-- A scalar dynamic value handed to the `mat` constructor. -/
inductive ScalarValue where
  | int (i : ℤ)
  | str (s : String)
deriving DecidableEq

/-- A dynamic value handed to the `mat` constructor, as seen by the
argument-parsing block of `MatElem`: either a scalar or an array
(arrays are modelled one level deep — the parse block only ever
displays their elements opaquely). -/
inductive Value where
  | scalar (v : ScalarValue)
  | array (items : List ScalarValue)
deriving DecidableEq

/-- Content of one cell: opaque, already-parsed material.  `empty`
mirrors `Content::empty()`; `ofValue` is the display of a value. -/
inductive Content where
  | empty
  | ofValue (v : Value)
deriving DecidableEq

/-- Mirrors `Value::display`, turning a value into content. -/
def Value.display (v : Value) : Content := Content.ofValue v

/-- Whether a value is an array, mirroring
`matches!(spanned.v, Value::Array(_))`. -/
def Value.isArray : Value → Bool
  | .array _ => true
  | _ => false

/-- Modelled from the spec: the `Value` → `Array` cast used by the
`MatElem` parsing block lives outside the visible source.  Per the
spec's normalization rule, an array casts to its own elements and a
scalar argument is reinterpreted as one single-element row. -/
def Value.castToArray : Value → List Value
  | .array items => items.map Value.scalar
  | v => [v]

/-- The guarded `row.resize(width, Content::empty())` step of the
`MatElem` parsing block: right-pad a row up to `width` with empty cells
(rows already at least that long are untouched). -/
def padRow (row : List Content) (width : ℕ) : List Content :=
  if row.length < width then row ++ List.replicate (width - row.length) Content.empty
  else row

/-- The `#[parse(..)]` block of `MatElem::rows`: if any supplied argument
is an array, every argument becomes one row (cast to an array, elements
displayed) and `width` is the running maximum row length; otherwise all
arguments collectively form a single row.  Afterwards every shorter row
is right-padded with empty cells to `width`. -/
def matElemRowsParse (values : List (Value × Span)) : List (List Content) :=
  if values.any (fun vs => vs.1.isArray) then
    let rows := values.map (fun vs => (vs.1.castToArray).map Value.display)
    let width := rows.foldl (fun w row => max w row.length) 0
    rows.map (fun row => padRow row width)
  else
    [values.map (fun vs => vs.1.display)]

/-- The rows of the `MatElem` parse before the padding pass (each
argument classified as array-row or part of the single collective row). -/
def matNaturalRows (values : List (Value × Span)) : List (List Content) :=
  if values.any (fun vs => vs.1.isArray) then
    values.map (fun vs => (vs.1.castToArray).map Value.display)
  else
    [values.map (fun vs => vs.1.display)]

/-- The maximum length among the natural (pre-padding) rows. -/
def matRowsWidth (values : List (Value × Span)) : ℕ :=
  ((matNaturalRows values).map List.length).foldl (fun w n => max w n) 0

/-- A math rendering style.  Modelled from the spec: only the size
reduction and cramping that `MathStyle::for_denominator` performs are
relevant here. -/
structure MathStyle where
  sizeLevel : ℕ
  cramped : Bool
deriving DecidableEq

/-- Mirrors `MathStyle::for_denominator`: the reduced style used for
fraction denominators (one size level smaller, cramped). -/
def MathStyle.for_denominator (s : MathStyle) : MathStyle :=
  ⟨min (s.sizeLevel + 1) 3, true⟩

/-- The measured box produced by the external cell-layout primitive
`ctx.layout_row` for one cell: its vertical metrics and the widths of
the segments between its alignment points (a cell without alignment
points has a single segment, its natural width). -/
structure MathRow where
  segments : List Abs
  ascent : Abs
  descent : Abs
deriving DecidableEq

/-- The box obtained from a laid-out cell by
`MathRow::into_aligned_frame` (external); only its width and vertical
metrics are consumed by the matrix placement loop. -/
structure CellBox where
  width : Abs
  ascent : Abs
  descent : Abs
deriving DecidableEq

/-- A point, mirroring `Point`. -/
structure Point where
  x : Abs
  y : Abs
deriving DecidableEq

/-- A size, mirroring `Size`. -/
structure Size where
  x : Abs
  y : Abs
deriving DecidableEq

/-- Mirrors `Size::zero()`. -/
def Size.zero : Size := ⟨0, 0⟩

/-- A frame: a sized composite of positioned cell boxes with an optional
explicit baseline, mirroring `Frame` as used by matrix.rs. -/
structure Frame where
  size : Size
  baselineField : Option Abs
  children : List (Point × CellBox)
deriving DecidableEq

/-- Mirrors `Frame::new`: given size, no explicit baseline, no children. -/
def Frame.new (s : Size) : Frame := ⟨s, Option.none, []⟩

/-- Mirrors `Frame::height`. -/
def Frame.height (f : Frame) : Abs := f.size.y

/-- Mirrors `Frame::baseline`: the explicit baseline if set, otherwise
the frame's full height. -/
def Frame.baseline (f : Frame) : Abs := f.baselineField.getD f.size.y

/-- Mirrors `Frame::set_baseline`. -/
def Frame.set_baseline (f : Frame) (b : Abs) : Frame :=
  { f with baselineField := some b }

/-- Horizontal alignment policy, mirroring `Align`. -/
inductive Align where
  | left
  | center
  | right
deriving DecidableEq

/-- A fragment pushed into the ambient math layout stream: either a
stretched delimiter glyph (recording the character, the stretch target,
the short fall, and whether it was centered on the axis) or a finished
frame. -/
inductive MathFragment where
  | glyph (char : Char) (target : Abs) (short_fall : Abs) (centered : Bool)
  | frame (f : Frame)
deriving DecidableEq

/-- The result of the external column-alignment utility `alignments`. -/
structure AlignmentResult where
  points : List Abs
  width : Abs
deriving DecidableEq

/-- The ambient math layout context.  The style stack and the fragment
stream mirror `MathContext`; the external primitives (cell layout,
aligned-frame conversion, stacking) are carried as function fields since
their implementations live outside the visible source. -/
structure MathContext where
  emSize : ℚ
  axisHeight : Abs
  shortFall : Abs
  style : MathStyle
  style_stack : List MathStyle
  fragments : List MathFragment
  layoutRowFn : MathStyle → Content → Except LayoutError MathRow
  intoAlignedFrameFn : MathRow → List Abs → Align → CellBox
  stackFn : List MathRow → Align → Abs → ℕ → Frame

/-- Mirrors `MathContext::style`: push the current style on the stack
and switch to the given one. -/
def MathContext.pushStyle (ctx : MathContext) (s : MathStyle) : MathContext :=
  { ctx with style := s, style_stack := ctx.style :: ctx.style_stack }

/-- Mirrors `MathContext::unstyle`: restore the most recently pushed
style. -/
def MathContext.unstyle (ctx : MathContext) : MathContext :=
  match ctx.style_stack with
  | [] => ctx
  | s :: rest => { ctx with style := s, style_stack := rest }

/-- Mirrors `MathContext::push`: append a fragment to the output stream. -/
def MathContext.push (ctx : MathContext) (f : MathFragment) : MathContext :=
  { ctx with fragments := ctx.fragments ++ [f] }

/-- Mirrors `ctx.layout_row(child)`: lay out one cell's content under
the context's current style. -/
def MathContext.layout_row (ctx : MathContext) (c : Content) :
    Except LayoutError MathRow :=
  ctx.layoutRowFn ctx.style c

/-- Mirrors `Em::scaled`: resolve a font-relative length at the
context's font size. -/
def Em.scaled (em : Em) (ctx : MathContext) : Abs := em.val * ctx.emSize

/-- Mirrors the external `stack(ctx, rows, align, gap, 0)` utility. -/
def stack (ctx : MathContext) (rows : List MathRow) (align : Align)
    (gap : Abs) (alternator : ℕ) : Frame :=
  ctx.stackFn rows align gap alternator

/-- A vector / matrix delimiter, mirroring `Delimiter`. -/
inductive Delimiter where
  | Paren
  | Bracket
  | Brace
  | Bar
  | DoubleBar
deriving DecidableEq

/-- Mirrors `Delimiter::open`: the delimiter's opening character. -/
def Delimiter.openChar : Delimiter → Char
  | .Paren => '('
  | .Bracket => '['
  | .Brace => '\x7b'
  | .Bar => '|'
  | .DoubleBar => '‖'

/-- Mirrors `Delimiter::close`: the delimiter's closing character. -/
def Delimiter.closeChar : Delimiter → Char
  | .Paren => ')'
  | .Bracket => ']'
  | .Brace => '\x7d'
  | .Bar => '|'
  | .DoubleBar => '‖'

/-- Pointwise maximum of two segment-width lists; a position missing
from one list keeps the other list's width. -/
def zipMax : List Abs → List Abs → List Abs
  | [], ys => ys
  | x :: xs, [] => x :: xs
  | x :: xs, y :: ys => max x y :: zipMax xs ys

/-- Modelled from the spec: the merge step of the external `alignments`
utility — the segment widths of a column are merged by taking, at every
alignment-split position, the maximum width any cell needs there. -/
def mergedSegments (col : List MathRow) : List Abs :=
  col.foldr (fun mr acc => zipMax mr.segments acc) []

/-- Running sums of the merged segment widths, excluding the final
total: these are the alignment-point offsets of the column (a column
whose cells declare no alignment point — one segment each — has none). -/
def sumsFrom (x : Abs) : List Abs → List Abs
  | [] => []
  | [_] => []
  | w :: rest => (x + w) :: sumsFrom (x + w) rest

/-- Modelled from the spec: the external `alignments` utility.  It
unions the alignment-point offsets declared by the cells of one column
and computes the column's final width — the maximum extent any cell
occupies once split and re-measured at those offsets, i.e. the sum of
the per-segment maxima (for cells without alignment points this is the
maximum natural width). -/
def alignments (col : List MathRow) : AlignmentResult :=
  ⟨sumsFrom 0 (mergedSegments col), (mergedSegments col).sum⟩

/-- The cell loop of `layout_vec_body` and `layout_mat_body`'s rows:
lay out cells left to right, stopping at the first failure (mirroring
the `?` on `ctx.layout_row(child)`). -/
def layoutRowCells (ctx : MathContext) : List Content → Except LayoutError (List MathRow)
  | [] => .ok []
  | c :: cs =>
    match ctx.layout_row c with
    | .error e => .error e
    | .ok mr =>
      match layoutRowCells ctx cs with
      | .error e => .error e
      | .ok rest => .ok (mr :: rest)

/-- Mirrors `layout_vec_body`: scale the row gap, push the reduced
(denominator) style, lay out every cell, pop the style, and stack the
cells.  The `?` on `ctx.layout_row` returns from inside the styled
region, so on the error path the context is returned with the reduced
style still pushed — exactly as in the source. -/
def layout_vec_body (ctx : MathContext) (column : List Content) (align : Align) :
    MathContext × Except LayoutError Frame :=
  let gap := ROW_GAP.scaled ctx
  let ctx1 := ctx.pushStyle ctx.style.for_denominator
  match layoutRowCells ctx1 column with
  | .error e => (ctx1, .error e)
  | .ok flat =>
    let ctx2 := ctx1.unstyle
    (ctx2, .ok (stack ctx2 flat align gap 0))

/-- The row-major cell loop of `layout_mat_body`: each row is truncated
to the first `ncols` cells (the `row.iter().zip(&mut cols)` pairing) and
laid out left to right, stopping at the first failure. -/
def layoutAllRows (ctx : MathContext) (ncols : ℕ) :
    List (List Content) → Except LayoutError (List (List MathRow))
  | [] => .ok []
  | row :: rest =>
    match layoutRowCells ctx (row.take ncols) with
    | .error e => .error e
    | .ok lr =>
      match layoutAllRows ctx ncols rest with
      | .error e => .error e
      | .ok more => .ok (lr :: more)

/-- The running `ascent.set_max(cell.ascent())` of one row's cells. -/
def rowMaxAscent (cells : List MathRow) : Abs :=
  cells.foldl (fun a mr => max a mr.ascent) 0

/-- The running `descent.set_max(cell.descent())` of one row's cells. -/
def rowMaxDescent (cells : List MathRow) : Abs :=
  cells.foldl (fun a mr => max a mr.descent) 0

/-- The per-column grouping performed by pushing each laid-out cell into
`cols`: column `j` receives, in row order, the `j`-th laid-out cell of
every row that has one. -/
def colsOf (ncols : ℕ) (laid : List (List MathRow)) : List (List MathRow) :=
  (List.range ncols).map (fun j => laid.filterMap (fun lr => lr.get? j))

/-- The inner placement loop of `layout_mat_body` for one column: walk
the column's cells in step with the row height bands, converting each
cell to an aligned frame and positioning it (centered in the column when
there are no alignment points, flush left otherwise; vertically so its
ascent meets the row's shared ascent). -/
def placeCol (ctx : MathContext) (points : List Abs) (rcol x row_gap : Abs) :
    List MathRow → List (Abs × Abs) → Abs → List (Point × CellBox)
  | [], _, _ => []
  | _ :: _, [], _ => []
  | cell :: cells, (ascent, descent) :: hs, y =>
    let cb := ctx.intoAlignedFrameFn cell points Align.center
    let px := if points.isEmpty then x + (rcol - cb.width) / 2 else x
    let py := y + ascent - cb.ascent
    (⟨px, py⟩, cb) :: placeCol ctx points rcol x row_gap cells hs (y + ascent + descent + row_gap)

/-- The outer placement loop of `layout_mat_body`: process columns left
to right, running `alignments` on each, placing its cells, and
advancing the running x offset by the column width plus the column gap.
Returns the placed children and the final x offset. -/
def placeCols (ctx : MathContext) (heights : List (Abs × Abs)) (row_gap col_gap : Abs) :
    List (List MathRow) → Abs → List (Point × CellBox) × Abs
  | [], x => ([], x)
  | col :: rest, x =>
    let ar := alignments col
    let placed := placeCol ctx ar.points ar.width x row_gap col heights 0
    let next := placeCols ctx heights row_gap col_gap rest (x + ar.width + col_gap)
    (placed ++ next.1, next.2)

/-- Mirrors `layout_mat_body`: the column count is the first row's
length; an empty grid yields a zero-size frame; otherwise the cells are
laid out under the pushed reduced style (with the `?` error path leaving
that style pushed, as in the source), row height bands are the running
maxima of the laid-out cells' ascents and descents, the frame height is
the sum of the bands plus the row gaps, and the cells are placed column
by column with the frame width fixed afterwards. -/
def layout_mat_body (ctx : MathContext) (rows : List (List Content)) :
    MathContext × Except LayoutError Frame :=
  let row_gap := ROW_GAP.scaled ctx
  let col_gap := COL_GAP.scaled ctx
  let ncols := (rows.head?.map List.length).getD 0
  let nrows := rows.length
  if ncols = 0 ∨ nrows = 0 then (ctx, .ok (Frame.new Size.zero))
  else
    let ctx1 := ctx.pushStyle ctx.style.for_denominator
    match layoutAllRows ctx1 ncols rows with
    | .error e => (ctx1, .error e)
    | .ok laid =>
      let ctx2 := ctx1.unstyle
      let heights := laid.map (fun lr => (rowMaxAscent lr, rowMaxDescent lr))
      let bodyHeight :=
        (heights.map (fun p => p.1 + p.2)).sum + row_gap * ((nrows - 1 : ℕ) : ℚ)
      let cols := colsOf ncols laid
      let pc := placeCols ctx2 heights row_gap col_gap cols 0
      (ctx2, .ok ⟨⟨pc.2 - col_gap, bodyHeight⟩, Option.none, pc.1⟩)

/-- Mirrors `layout_delimiters`: set the body's baseline to half its
height plus the axis height, then push the optional stretched left
glyph, the body frame, and the optional stretched right glyph; the
stretch target is the body height plus the vertical padding ratio of it. -/
def layout_delimiters (ctx : MathContext) (frame : Frame)
    (left right : Option Char) (span : Span) :
    MathContext × Except LayoutError Unit :=
  let axis := ctx.axisHeight
  let short_fall := ctx.shortFall
  let height := frame.height
  let target := height + VERTICAL_PADDING.of height
  let frame1 := frame.set_baseline (height / 2 + axis)
  let ctx1 :=
    match left with
    | some c => ctx.push (.glyph c target short_fall true)
    | Option.none => ctx
  let ctx2 := ctx1.push (.frame frame1)
  let ctx3 :=
    match right with
    | some c => ctx2.push (.glyph c target short_fall true)
    | Option.none => ctx2
  (ctx3, .ok ())

/-- A column vector element, mirroring `VecElem`. -/
structure VecElem where
  delim : Option Delimiter
  children : List Content
  span : Span

/-- Mirrors `VecElem::layout_math`: lay out the centered column body and
wrap it with the configured delimiter's open/close characters (or none). -/
def VecElem.layout_math (elem : VecElem) (ctx : MathContext) :
    MathContext × Except LayoutError Unit :=
  let delim := elem.delim
  match layout_vec_body ctx elem.children Align.center with
  | (ctx1, .error e) => (ctx1, .error e)
  | (ctx1, .ok frame) =>
    layout_delimiters ctx1 frame (delim.map Delimiter.openChar)
      (delim.map Delimiter.closeChar) elem.span

/-- A matrix element, mirroring `MatElem` (its `rows` field is produced
by `matElemRowsParse`). -/
structure MatElem where
  delim : Option Delimiter
  rows : List (List Content)
  span : Span

/-- Mirrors `MatElem::layout_math`: lay out the grid body and wrap it
with the configured delimiter's open/close characters (or none). -/
def MatElem.layout_math (elem : MatElem) (ctx : MathContext) :
    MathContext × Except LayoutError Unit :=
  let delim := elem.delim
  match layout_mat_body ctx elem.rows with
  | (ctx1, .error e) => (ctx1, .error e)
  | (ctx1, .ok frame) =>
    layout_delimiters ctx1 frame (delim.map Delimiter.openChar)
      (delim.map Delimiter.closeChar) elem.span

/-- A case-distinction element, mirroring `CasesElem`. -/
structure CasesElem where
  delim : Delimiter
  children : List Content
  span : Span

/-- Mirrors `CasesElem::layout_math`: lay out the left-aligned branch
body and wrap it with the configured delimiter's opening character on
the left only (no right delimiter). -/
def CasesElem.layout_math (elem : CasesElem) (ctx : MathContext) :
    MathContext × Except LayoutError Unit :=
  let delim := elem.delim
  match layout_vec_body ctx elem.children Align.left with
  | (ctx1, .error e) => (ctx1, .error e)
  | (ctx1, .ok frame) =>
    layout_delimiters ctx1 frame (some delim.openChar) Option.none elem.span

/-- The delimiter glyph characters among a fragment stream, in order. -/
def emittedGlyphChars (frags : List MathFragment) : List Char :=
  frags.filterMap (fun f =>
    match f with
    | .glyph c _ _ _ => some c
    | .frame _ => Option.none)

/-- The stretch targets of the delimiter glyphs among a fragment
stream, in order. -/
def glyphTargets (frags : List MathFragment) : List Abs :=
  frags.filterMap (fun f =>
    match f with
    | .glyph _ t _ _ => some t
    | .frame _ => Option.none)

/-- The ambient style used by the sample contexts below. -/
def baseStyle : MathStyle := ⟨0, false⟩

/-- A sample measured cell box: one segment of width 1, ascent 1,
descent 1. -/
def sampleRow : MathRow := ⟨[1], 1, 1⟩

/-- A sample context whose cell-layout primitive always succeeds with
`sampleRow`. -/
def okCtx : MathContext :=
  ⟨1, 1/2, 1/10, baseStyle, [], [],
    fun _ _ => .ok sampleRow,
    fun mr _ _ => ⟨mr.segments.sum, mr.ascent, mr.descent⟩,
    fun _ _ _ _ => Frame.new ⟨1, 2⟩⟩

/-- A sample context whose cell-layout primitive always fails. -/
def errCtx : MathContext :=
  ⟨1, 1/2, 1/10, baseStyle, [], [],
    fun _ _ => .error ⟨7⟩,
    fun mr _ _ => ⟨mr.segments.sum, mr.ascent, mr.descent⟩,
    fun _ _ _ _ => Frame.new ⟨1, 2⟩⟩

/-- A cases element configured with the Bracket delimiter. -/
def casesBracket : CasesElem := ⟨Delimiter.Bracket, [Content.empty], 0⟩

/-- A sample body frame of height 2 with no explicit baseline. -/
def bodyFrame : Frame := ⟨⟨1, 2⟩, Option.none, []⟩

/-- A vector element with its delimiter explicitly set to none. -/
def vecNone : VecElem := ⟨Option.none, [Content.empty], 0⟩

/-- A matrix element with its delimiter explicitly set to none. -/
def matNone : MatElem := ⟨Option.none, [[Content.empty]], 0⟩

/-- Sample `mat` arguments mixing an array argument with a scalar one. -/
def sampleValues : List (Value × Span) :=
  [(Value.array [ScalarValue.int 1, ScalarValue.int 2], 0),
   (Value.scalar (ScalarValue.int 3), 1)]

/-- Sample `mat` arguments that are all scalars. -/
def scalarValues : List (Value × Span) :=
  [(Value.scalar (ScalarValue.int 1), 0), (Value.scalar (ScalarValue.int 2), 1),
   (Value.scalar (ScalarValue.int 3), 2), (Value.scalar (ScalarValue.int 4), 3)]

/-- Sample cell boxes for the column-alignment properties. -/
def mrX : MathRow := ⟨[1, 2], 1, 0⟩

/-- A second sample cell box. -/
def mrY : MathRow := ⟨[2], 0, 1⟩

/-- A cell with alignment offset 1 and last segment 2. -/
def mrA : MathRow := ⟨[1, 2], 1, 1⟩

/-- The cell `mrA` widened: same alignment offset, last segment 3. -/
def mrB : MathRow := ⟨[1, 3], 1, 1⟩

/-- Whether `rows` is laid out cell for cell by the context's layout
primitive into `laid` (row-major, every cell succeeding). -/
def LaidRows (ctx : MathContext) (rows : List (List Content))
    (laid : List (List MathRow)) : Prop :=
  List.Forall₂ (List.Forall₂ (fun c mr => ctx.layout_row c = .ok mr)) rows laid

theorem layout_vec_body_fst_eq (ctx : MathContext) (col : List Content) (align : Align) :
    ∃ st ss, (layout_vec_body ctx col align).1 =
      { ctx with style := st, style_stack := ss } := by
  unfold layout_vec_body
  dsimp only
  split
  · exact ⟨_, _, rfl⟩
  · exact ⟨_, _, rfl⟩

theorem layout_mat_body_fst_eq (ctx : MathContext) (rows : List (List Content)) :
    ∃ st ss, (layout_mat_body ctx rows).1 =
      { ctx with style := st, style_stack := ss } := by
  unfold layout_mat_body
  dsimp only
  split
  · exact ⟨ctx.style, ctx.style_stack, rfl⟩
  · split
    · exact ⟨_, _, rfl⟩
    · exact ⟨_, _, rfl⟩

theorem layout_vec_body_ctx_eq (ctx : MathContext) (col : List Content) (align : Align) :
    ((layout_vec_body ctx col align).1).fragments = ctx.fragments ∧
    ((layout_vec_body ctx col align).1).axisHeight = ctx.axisHeight ∧
    ((layout_vec_body ctx col align).1).shortFall = ctx.shortFall := by
  obtain ⟨st, ss, h⟩ := layout_vec_body_fst_eq ctx col align
  rw [h]
  exact ⟨rfl, rfl, rfl⟩

theorem layout_mat_body_ctx_eq (ctx : MathContext) (rows : List (List Content)) :
    ((layout_mat_body ctx rows).1).fragments = ctx.fragments ∧
    ((layout_mat_body ctx rows).1).axisHeight = ctx.axisHeight ∧
    ((layout_mat_body ctx rows).1).shortFall = ctx.shortFall := by
  obtain ⟨st, ss, h⟩ := layout_mat_body_fst_eq ctx rows
  rw [h]
  exact ⟨rfl, rfl, rfl⟩

/-- C1: the claim says the cell-layout routines pop the reduced
(denominator) style on the error exit path.  The code does not: the `?`
on `ctx.layout_row` returns before `ctx.unstyle()` runs.  Evaluating
both routines on a context whose cell layout fails shows the reduced
style still pushed on the error exit (stack `[baseStyle]` instead of the
original `[]`), while the success path does restore the stack. -/
theorem style_not_restored_on_error :
    (layout_vec_body errCtx [Content.empty] Align.center).1.style_stack = [baseStyle] ∧
    (layout_vec_body errCtx [Content.empty] Align.center).2 = .error ⟨7⟩ ∧
    (layout_mat_body errCtx [[Content.empty]]).1.style_stack = [baseStyle] ∧
    (layout_mat_body errCtx [[Content.empty]]).2 = .error ⟨7⟩ ∧
    errCtx.style_stack = [] ∧
    (layout_vec_body okCtx [Content.empty] Align.center).1.style_stack = [] ∧
    (layout_mat_body okCtx [[Content.empty]]).1.style_stack = [] := by
  refine ⟨rfl, rfl, rfl, rfl, rfl, rfl, rfl⟩

theorem layout_delimiters_fragments (ctx : MathContext) (frame : Frame)
    (left right : Option Char) (span : Span) :
    ((layout_delimiters ctx frame left right span).1).fragments =
      ctx.fragments ++
        (left.toList.map (fun c =>
          MathFragment.glyph c (frame.height + VERTICAL_PADDING.of frame.height)
            ctx.shortFall true)) ++
        [MathFragment.frame (frame.set_baseline (frame.height / 2 + ctx.axisHeight))] ++
        (right.toList.map (fun c =>
          MathFragment.glyph c (frame.height + VERTICAL_PADDING.of frame.height)
            ctx.shortFall true)) := by
  cases left <;> cases right <;> simp [layout_delimiters, MathContext.push]

theorem layout_delimiters_snd (ctx : MathContext) (frame : Frame)
    (left right : Option Char) (span : Span) :
    (layout_delimiters ctx frame left right span).2 = .ok () := by
  cases left <;> cases right <;> rfl

/-- C2 counterexample: a Cases element whose delimiter is configured to
Bracket emits `'['` as its left glyph — not the Brace delimiter's
opening character `'{'` that the claim says is always used. -/
theorem cases_bracket_left_glyph_not_brace :
    emittedGlyphChars ((CasesElem.layout_math casesBracket okCtx).1.fragments) = ['['] ∧
    ('[' : Char) ≠ Delimiter.Brace.openChar := by
  exact ⟨rfl, by decide⟩

/-- C2 (amended): for every Cases layout that completes, the left glyph
emitted is the configured delimiter variant's own opening character
(so Bracket yields `'['`; the Brace opening character appears only when
the delimiter is Brace, which is merely the default). -/
theorem cases_layout_uses_configured_open :
    ∀ (ctx : MathContext) (elem : CasesElem) (ctx₁ : MathContext)
      (r : Except LayoutError Unit),
      CasesElem.layout_math elem ctx = (ctx₁, r) → r = .ok () →
      emittedGlyphChars ctx₁.fragments =
        emittedGlyphChars ctx.fragments ++ [elem.delim.openChar] := by
  intro ctx elem ctx₁ r h hr
  subst hr
  unfold CasesElem.layout_math at h
  rcases hv : layout_vec_body ctx elem.children Align.left with ⟨ctxb, res⟩
  rw [hv] at h
  cases res with
  | error e => simp at h
  | ok frame =>
    dsimp only at h
    have hctx1 : ctx₁ =
        (layout_delimiters ctxb frame (some elem.delim.openChar) Option.none elem.span).1 := by
      rw [h]
    have hb := (layout_vec_body_ctx_eq ctx elem.children Align.left).1
    rw [hv] at hb
    dsimp only at hb
    rw [hctx1, layout_delimiters_fragments]
    simp [emittedGlyphChars, List.filterMap_append, hb]

/-- C2 witness: the amended theorem applied to the Bracket-configured
sample element on the sample context. -/
theorem cases_layout_uses_configured_open_witness :
    emittedGlyphChars ((CasesElem.layout_math casesBracket okCtx).1.fragments) =
      emittedGlyphChars okCtx.fragments ++ [casesBracket.delim.openChar] :=
  cases_layout_uses_configured_open okCtx casesBracket
    (CasesElem.layout_math casesBracket okCtx).1
    (CasesElem.layout_math casesBracket okCtx).2 rfl rfl

/-- C6: every Cases layout that completes pushes exactly one delimiter
glyph — the left one, placed immediately before the body frame — and no
right glyph: the new fragments are precisely one glyph followed by one
frame. -/
theorem cases_emits_left_only :
    ∀ (ctx : MathContext) (elem : CasesElem) (ctx₁ : MathContext)
      (r : Except LayoutError Unit),
      CasesElem.layout_math elem ctx = (ctx₁, r) → r = .ok () →
      ∃ (t : Abs) (fr : Frame),
        ctx₁.fragments = ctx.fragments ++
          [MathFragment.glyph elem.delim.openChar t ctx.shortFall true,
           MathFragment.frame fr] := by
  intro ctx elem ctx₁ r h hr
  subst hr
  unfold CasesElem.layout_math at h
  rcases hv : layout_vec_body ctx elem.children Align.left with ⟨ctxb, res⟩
  rw [hv] at h
  cases res with
  | error e => simp at h
  | ok frame =>
    dsimp only at h
    have hctx1 : ctx₁ =
        (layout_delimiters ctxb frame (some elem.delim.openChar) Option.none elem.span).1 := by
      rw [h]
    obtain ⟨hb, _, hs⟩ := layout_vec_body_ctx_eq ctx elem.children Align.left
    rw [hv] at hb hs
    dsimp only at hb hs
    refine ⟨frame.height + VERTICAL_PADDING.of frame.height,
      frame.set_baseline (frame.height / 2 + ctxb.axisHeight), ?_⟩
    rw [hctx1, layout_delimiters_fragments]
    simp [hb, hs]

/-- C6 witness: the theorem applied to the sample Cases element on the
sample context. -/
theorem cases_emits_left_only_witness :
    ∃ (t : Abs) (fr : Frame),
      (CasesElem.layout_math casesBracket okCtx).1.fragments =
        okCtx.fragments ++
          [MathFragment.glyph casesBracket.delim.openChar t okCtx.shortFall true,
           MathFragment.frame fr] :=
  cases_emits_left_only okCtx casesBracket
    (CasesElem.layout_math casesBracket okCtx).1
    (CasesElem.layout_math casesBracket okCtx).2 rfl rfl

/-- C7: every delimiter glyph pushed by `layout_delimiters` is stretched
to the target `height + VERTICAL_PADDING.of height`, which equals
exactly 1.1 times the body frame's height (for each present delimiter
character on either side, and no other glyphs are pushed). -/
theorem delimiter_stretch_target :
    ∀ (ctx : MathContext) (frame : Frame) (left right : Option Char) (span : Span),
      glyphTargets ((layout_delimiters ctx frame left right span).1.fragments) =
        glyphTargets ctx.fragments ++
          (left.toList ++ right.toList).map (fun _ => (11/10 : ℚ) * frame.height) := by
  intro ctx frame left right span
  rw [layout_delimiters_fragments]
  have harith : frame.height + VERTICAL_PADDING.of frame.height =
      (11/10 : ℚ) * frame.height := by
    unfold VERTICAL_PADDING Ratio.new Ratio.of
    ring
  cases left <;> cases right <;>
    simp [glyphTargets, List.filterMap_append, harith]

/-- C8 counterexample: with both delimiters suppressed the body frame is
pushed alone, but its baseline is not unchanged — `layout_delimiters`
re-sets it to `height / 2 + axis` (here 3/2) while the body as built had
baseline 2 (its height). -/
theorem delim_none_baseline_changed :
    (layout_delimiters okCtx bodyFrame Option.none Option.none 0).1.fragments =
      okCtx.fragments ++ [MathFragment.frame (bodyFrame.set_baseline (3/2))] ∧
    Frame.baseline (bodyFrame.set_baseline (3/2)) ≠ Frame.baseline bodyFrame := by
  constructor
  · simp only [layout_delimiters, MathContext.push, Frame.set_baseline, Frame.height,
      VERTICAL_PADDING, Ratio.new, Ratio.of, okCtx, bodyFrame]
    norm_num
  · simp only [Frame.baseline, Frame.set_baseline, bodyFrame, Option.getD]
    norm_num

/-- C8 (amended): for a Vector or Matrix whose delimiter is explicitly
none, no delimiter glyph is emitted on either side and the single pushed
fragment is the body frame alone, with its size and children unchanged —
but with its baseline re-set to half the body height plus the axis
height (the unconditional axis-centering step of `layout_delimiters`). -/
theorem vec_mat_delim_none_body_alone :
    (∀ (ctx : MathContext) (elem : VecElem) (ctx₁ : MathContext)
        (r : Except LayoutError Unit),
      elem.delim = Option.none →
      VecElem.layout_math elem ctx = (ctx₁, r) → r = .ok () →
      ∃ (body : Frame) (ctxb : MathContext),
        layout_vec_body ctx elem.children Align.center = (ctxb, .ok body) ∧
        ctx₁.fragments = ctx.fragments ++
          [MathFragment.frame (body.set_baseline (body.height / 2 + ctx.axisHeight))]) ∧
    (∀ (ctx : MathContext) (elem : MatElem) (ctx₁ : MathContext)
        (r : Except LayoutError Unit),
      elem.delim = Option.none →
      MatElem.layout_math elem ctx = (ctx₁, r) → r = .ok () →
      ∃ (body : Frame) (ctxb : MathContext),
        layout_mat_body ctx elem.rows = (ctxb, .ok body) ∧
        ctx₁.fragments = ctx.fragments ++
          [MathFragment.frame (body.set_baseline (body.height / 2 + ctx.axisHeight))]) ∧
    (∀ (f : Frame) (b : Abs),
      (f.set_baseline b).size = f.size ∧ (f.set_baseline b).children = f.children ∧
      (f.set_baseline b).baseline = b) := by
  refine ⟨?_, ?_, ?_⟩
  · intro ctx elem ctx₁ r hd h hr
    subst hr
    unfold VecElem.layout_math at h
    rw [hd] at h
    simp only [Option.map_none'] at h
    rcases hv : layout_vec_body ctx elem.children Align.center with ⟨ctxb, res⟩
    rw [hv] at h
    cases res with
    | error e => simp at h
    | ok frame =>
      dsimp only at h
      have hctx1 : ctx₁ =
          (layout_delimiters ctxb frame Option.none Option.none elem.span).1 := by
        rw [h]
      obtain ⟨hb, ha, _⟩ := layout_vec_body_ctx_eq ctx elem.children Align.center
      rw [hv] at hb ha
      dsimp only at hb ha
      refine ⟨frame, ctxb, rfl, ?_⟩
      rw [hctx1, layout_delimiters_fragments]
      simp [hb, ha]
  · intro ctx elem ctx₁ r hd h hr
    subst hr
    unfold MatElem.layout_math at h
    rw [hd] at h
    simp only [Option.map_none'] at h
    rcases hv : layout_mat_body ctx elem.rows with ⟨ctxb, res⟩
    rw [hv] at h
    cases res with
    | error e => simp at h
    | ok frame =>
      dsimp only at h
      have hctx1 : ctx₁ =
          (layout_delimiters ctxb frame Option.none Option.none elem.span).1 := by
        rw [h]
      obtain ⟨hb, ha, _⟩ := layout_mat_body_ctx_eq ctx elem.rows
      rw [hv] at hb ha
      dsimp only at hb ha
      refine ⟨frame, ctxb, rfl, ?_⟩
      rw [hctx1, layout_delimiters_fragments]
      simp [hb, ha]
  · intro f b
    exact ⟨rfl, rfl, rfl⟩

/-- C8 witness: the amended theorem applied to the delimiter-none sample
vector element on the sample context. -/
theorem vec_mat_delim_none_body_alone_witness :
    ∃ (body : Frame) (ctxb : MathContext),
      layout_vec_body okCtx vecNone.children Align.center = (ctxb, .ok body) ∧
      (VecElem.layout_math vecNone okCtx).1.fragments = okCtx.fragments ++
        [MathFragment.frame (body.set_baseline (body.height / 2 + okCtx.axisHeight))] :=
  vec_mat_delim_none_body_alone.1 okCtx vecNone
    (VecElem.layout_math vecNone okCtx).1
    (VecElem.layout_math vecNone okCtx).2 rfl rfl rfl

theorem padRow_eq_append (row : List Content) (width : ℕ) :
    padRow row width = row ++ List.replicate (width - row.length) Content.empty := by
  unfold padRow
  split
  · rfl
  · have h : width - row.length = 0 := by omega
    simp [h]

theorem foldl_max_init_le (l : List ℕ) : ∀ a : ℕ, a ≤ l.foldl (fun w n => max w n) a := by
  induction l with
  | nil => intro a; exact le_refl a
  | cons x t ih =>
    intro a
    exact le_trans (le_max_left a x) (ih (max a x))

theorem le_foldl_max (l : List ℕ) : ∀ a x : ℕ, x ∈ l → x ≤ l.foldl (fun w n => max w n) a := by
  induction l with
  | nil => intro a x hx; cases hx
  | cons y t ih =>
    intro a x hx
    cases hx with
    | head => exact le_trans (le_max_right a y) (foldl_max_init_le t (max a y))
    | tail _ hm => exact ih (max a y) x hm

theorem matElemRowsParse_width (values : List (Value × Span))
    (h : values.any (fun vs => vs.1.isArray) = true) :
    matElemRowsParse values =
      (values.map (fun vs => (vs.1.castToArray).map Value.display)).map
        (fun row => padRow row (matRowsWidth values)) := by
  unfold matElemRowsParse matRowsWidth matNaturalRows
  rw [if_pos h, if_pos h]
  rw [List.foldl_map]

/-- C3: matrix argument normalization at construction — if any argument
is an array, every argument is one row (its cast-to-array cells,
displayed, padded to the common width), scalars among them becoming
single-element rows; if no argument is an array, all arguments together
form exactly one row. -/
theorem mat_rows_normalization :
    ∀ values : List (Value × Span),
      (values.any (fun vs => vs.1.isArray) = true →
        matElemRowsParse values =
          (values.map (fun vs => (vs.1.castToArray).map Value.display)).map
            (fun row => padRow row (matRowsWidth values))) ∧
      (values.any (fun vs => vs.1.isArray) = false →
        matElemRowsParse values = [values.map (fun vs => vs.1.display)]) ∧
      (∀ v : Value, v.isArray = false → v.castToArray = [v]) := by
  intro values
  refine ⟨matElemRowsParse_width values, ?_, ?_⟩
  · intro h
    unfold matElemRowsParse
    rw [if_neg (by simp [h])]
  · intro v hv
    cases v with
    | scalar s => rfl
    | array items => simp [Value.isArray] at hv

/-- C3 witness: the theorem applied to a mixed array/scalar argument
list and to an all-scalar argument list. -/
theorem mat_rows_normalization_witness :
    (matElemRowsParse sampleValues =
      (sampleValues.map (fun vs => (vs.1.castToArray).map Value.display)).map
        (fun row => padRow row (matRowsWidth sampleValues))) ∧
    (matElemRowsParse scalarValues = [scalarValues.map (fun vs => vs.1.display)]) :=
  ⟨(mat_rows_normalization sampleValues).1 (by decide),
   (mat_rows_normalization scalarValues).2.1 (by decide)⟩

/-- C5: after construction every matrix row has identical length equal
to the maximum length among the input (pre-padding) rows, and each row
is its natural cells right-padded with empty `Content` cells; the value
is immutable, so this holds for the lifetime of the matrix. -/
theorem mat_rows_rectangular :
    ∀ values : List (Value × Span),
      List.Forall₂ (fun nat padded =>
          padded = nat ++ List.replicate (matRowsWidth values - nat.length) Content.empty)
        (matNaturalRows values) (matElemRowsParse values) ∧
      (∀ row ∈ matElemRowsParse values, row.length = matRowsWidth values) := by
  intro values
  cases h : values.any (fun vs => vs.1.isArray) with
  | true =>
    have hp := matElemRowsParse_width values h
    have hnat : matNaturalRows values =
        values.map (fun vs => (vs.1.castToArray).map Value.display) := by
      unfold matNaturalRows
      rw [if_pos h]
    constructor
    · rw [hp, hnat]
      rw [List.forall₂_map_right_iff]
      rw [List.forall₂_same]
      intro x _
      rw [padRow_eq_append]
    · intro row hrow
      rw [hp] at hrow
      obtain ⟨nat, hnatmem, hpad⟩ := List.mem_map.mp hrow
      have hle : nat.length ≤ matRowsWidth values := by
        unfold matRowsWidth
        apply le_foldl_max
        rw [hnat]
        exact List.mem_map_of_mem List.length hnatmem
      rw [← hpad, padRow_eq_append]
      simp only [List.length_append, List.length_replicate]
      omega
  | false =>
    have hfalse : ¬ values.any (fun vs => vs.1.isArray) = true := by simp [h]
    have hp : matElemRowsParse values = [values.map (fun vs => vs.1.display)] := by
      unfold matElemRowsParse
      rw [if_neg hfalse]
    have hnat : matNaturalRows values = [values.map (fun vs => vs.1.display)] := by
      unfold matNaturalRows
      rw [if_neg hfalse]
    have hw : matRowsWidth values = (values.map (fun vs => vs.1.display)).length := by
      unfold matRowsWidth
      rw [hnat]
      simp [List.foldl]
    constructor
    · rw [hp, hnat]
      refine List.Forall₂.cons ?_ List.Forall₂.nil
      rw [hw]
      simp
    · intro row hrow
      rw [hp] at hrow
      simp only [List.mem_singleton] at hrow
      rw [hrow, hw]

/-- C5 witness: the theorem applied to the mixed sample argument list
(its scalar row `[3]` is padded to length 2 with an empty cell). -/
theorem mat_rows_rectangular_witness :
    List.Forall₂ (fun nat padded =>
        padded = nat ++ List.replicate (matRowsWidth sampleValues - nat.length) Content.empty)
      (matNaturalRows sampleValues) (matElemRowsParse sampleValues) ∧
    (∀ row ∈ matElemRowsParse sampleValues, row.length = matRowsWidth sampleValues) :=
  mat_rows_rectangular sampleValues

theorem zipMax_comm : ∀ xs ys : List Abs, zipMax xs ys = zipMax ys xs := by
  intro xs
  induction xs with
  | nil => intro ys; cases ys <;> rfl
  | cons x xs ih =>
    intro ys
    cases ys with
    | nil => rfl
    | cons y ys => simp [zipMax, max_comm, ih]

theorem zipMax_assoc : ∀ xs ys zs : List Abs,
    zipMax (zipMax xs ys) zs = zipMax xs (zipMax ys zs) := by
  intro xs
  induction xs with
  | nil => intro ys zs; rfl
  | cons x xs ih =>
    intro ys zs
    cases ys with
    | nil => cases zs <;> rfl
    | cons y ys =>
      cases zs with
      | nil => rfl
      | cons z zs => simp [zipMax, max_assoc, ih]

theorem mergedSegments_cons (mr : MathRow) (col : List MathRow) :
    mergedSegments (mr :: col) = zipMax mr.segments (mergedSegments col) := rfl

theorem mergedSegments_perm {col₁ col₂ : List MathRow} (h : col₁.Perm col₂) :
    mergedSegments col₁ = mergedSegments col₂ := by
  induction h with
  | nil => rfl
  | cons x _ ih => rw [mergedSegments_cons, mergedSegments_cons, ih]
  | swap x y l =>
    rw [mergedSegments_cons, mergedSegments_cons, mergedSegments_cons, mergedSegments_cons]
    rw [← zipMax_assoc, zipMax_comm y.segments x.segments, zipMax_assoc]
  | trans _ _ ih₁ ih₂ => exact ih₁.trans ih₂

theorem zipMax_mono_left {xs ys : List Abs} (h : List.Forall₂ (· ≤ ·) xs ys) :
    ∀ M : List Abs, List.Forall₂ (· ≤ ·) (zipMax xs M) (zipMax ys M) := by
  induction h with
  | nil =>
    intro M
    exact List.forall₂_same.mpr (fun x _ => le_refl x)
  | cons hxy hrest ih =>
    intro M
    cases M with
    | nil => exact List.Forall₂.cons hxy hrest
    | cons m ms => exact List.Forall₂.cons (max_le_max hxy (le_refl m)) (ih ms)

theorem zipMax_mono_right {M N : List Abs} (h : List.Forall₂ (· ≤ ·) M N)
    (s : List Abs) : List.Forall₂ (· ≤ ·) (zipMax s M) (zipMax s N) := by
  rw [zipMax_comm s M, zipMax_comm s N]
  exact zipMax_mono_left h s

theorem mergedSegments_mono_acc (pre : List MathRow) {M N : List Abs}
    (h : List.Forall₂ (· ≤ ·) M N) :
    List.Forall₂ (· ≤ ·)
      (pre.foldr (fun mr acc => zipMax mr.segments acc) M)
      (pre.foldr (fun mr acc => zipMax mr.segments acc) N) := by
  induction pre with
  | nil => exact h
  | cons p ps ih => exact zipMax_mono_right ih p.segments

theorem forall₂_le_sum {xs ys : List Abs} (h : List.Forall₂ (· ≤ ·) xs ys) :
    xs.sum ≤ ys.sum := by
  induction h with
  | nil => exact le_refl 0
  | cons hxy _ ih =>
    simp only [List.sum_cons]
    exact add_le_add hxy ih

/-- C9: the column-alignment computation is deterministic — its result
(points and width) is invariant under permutation of the column's cells,
so it depends only on the multiset of cell segment data — and
width-monotonic: replacing one cell by a strictly wider cell with the
same alignment offsets (same leading segments, strictly larger final
segment) never decreases the column width. -/
theorem alignments_det_mono :
    (∀ col₁ col₂ : List MathRow, col₁.Perm col₂ → alignments col₁ = alignments col₂) ∧
    (∀ (pre post : List MathRow) (c c' : MathRow) (init : List Abs) (w w' : Abs),
      c.segments = init ++ [w] → c'.segments = init ++ [w'] → w < w' →
      (alignments (pre ++ c :: post)).width ≤ (alignments (pre ++ c' :: post)).width) := by
  constructor
  · intro col₁ col₂ h
    unfold alignments
    rw [mergedSegments_perm h]
  · intro pre post c c' init w w' hc hc' hww
    unfold alignments
    simp only
    have hseg : List.Forall₂ (· ≤ ·) c.segments c'.segments := by
      rw [hc, hc']
      exact List.rel_append
        (List.forall₂_same.mpr (fun x _ => le_refl x))
        (List.Forall₂.cons (le_of_lt hww) List.Forall₂.nil)
    have hmerge : List.Forall₂ (· ≤ ·)
        (mergedSegments (pre ++ c :: post)) (mergedSegments (pre ++ c' :: post)) := by
      unfold mergedSegments
      rw [List.foldr_append, List.foldr_append]
      exact mergedSegments_mono_acc pre
        (zipMax_mono_left hseg (mergedSegments post))
    exact forall₂_le_sum hmerge

/-- C9 witness: the theorem applied to concrete two-cell columns — the
permuted column gives the same result, and widening `mrA` (segments
`[1, 2]`) to `mrB` (segments `[1, 3]`) does not decrease the width. -/
theorem alignments_det_mono_witness :
    alignments [mrX, mrY] = alignments [mrY, mrX] ∧
    (alignments ([mrX] ++ mrA :: [])).width ≤ (alignments ([mrX] ++ mrB :: [])).width :=
  ⟨alignments_det_mono.1 [mrX, mrY] [mrY, mrX] (List.Perm.swap mrY mrX []),
   alignments_det_mono.2 [mrX] [] mrA mrB [1] 2 3 rfl rfl (by norm_num)⟩

theorem layoutRowCells_of_forall₂ (ctx : MathContext) {row : List Content}
    {lr : List MathRow}
    (h : List.Forall₂ (fun c mr => ctx.layout_row c = .ok mr) row lr) :
    layoutRowCells ctx row = .ok lr := by
  induction h with
  | nil => rfl
  | cons hc _ ih => simp [layoutRowCells, hc, ih]

theorem layoutAllRows_of_laid (ctx : MathContext) (m : ℕ)
    {rows : List (List Content)} {laid : List (List MathRow)}
    (h : LaidRows ctx rows laid) :
    (∀ row ∈ rows, row.length ≤ m) → layoutAllRows ctx m rows = .ok laid := by
  unfold LaidRows at h
  induction h with
  | nil => intro _; rfl
  | cons hr _ ih =>
    intro hlen
    have htake := List.take_of_length_le (hlen _ (List.mem_cons_self _ _))
    simp [layoutAllRows, htake, layoutRowCells_of_forall₂ ctx hr,
      ih (fun row hrow => hlen row (List.mem_cons_of_mem _ hrow))]

theorem rowMaxAscent_max? {lr : List MathRow} (hne : lr ≠ [])
    (hnn : ∀ mr ∈ lr, 0 ≤ mr.ascent) :
    (lr.map MathRow.ascent).max? = some (rowMaxAscent lr) := by
  cases lr with
  | nil => exact absurd rfl hne
  | cons a t =>
    have ha : max (0 : ℚ) a.ascent = a.ascent :=
      max_eq_right (hnn a (List.mem_cons_self a t))
    show some ((t.map MathRow.ascent).foldl max a.ascent) = some (rowMaxAscent (a :: t))
    rw [List.foldl_map]
    unfold rowMaxAscent
    rw [List.foldl_cons, ha]

theorem rowMaxDescent_max? {lr : List MathRow} (hne : lr ≠ [])
    (hnn : ∀ mr ∈ lr, 0 ≤ mr.descent) :
    (lr.map MathRow.descent).max? = some (rowMaxDescent lr) := by
  cases lr with
  | nil => exact absurd rfl hne
  | cons a t =>
    have ha : max (0 : ℚ) a.descent = a.descent :=
      max_eq_right (hnn a (List.mem_cons_self a t))
    show some ((t.map MathRow.descent).foldl max a.descent) = some (rowMaxDescent (a :: t))
    rw [List.foldl_map]
    unfold rowMaxDescent
    rw [List.foldl_cons, ha]

/-- C4: for a rectangular matrix with `n ≥ 1` rows of length `m ≥ 1`
whose cells all lay out (with nonnegative metrics, as frame metrics
are), the body frame's height is the sum over rows of the row's maximum
cell ascent plus maximum cell descent, plus the 0.5 em row gap times
`n - 1`; and whenever `n = 0` or the first row is empty (so `m = 0`)
the returned body frame is exactly the zero-size frame. -/
theorem mat_body_height_spec :
    (∀ (ctx : MathContext) (rows : List (List Content))
        (laid : List (List MathRow)) (m : ℕ),
      0 < m → rows ≠ [] →
      (∀ row ∈ rows, row.length = m) →
      LaidRows (ctx.pushStyle ctx.style.for_denominator) rows laid →
      (∀ lr ∈ laid, ∀ mr ∈ lr, 0 ≤ mr.ascent ∧ 0 ≤ mr.descent) →
      ∃ (ctx' : MathContext) (frame : Frame),
        layout_mat_body ctx rows = (ctx', .ok frame) ∧
        frame.height =
          (laid.map (fun lr => rowMaxAscent lr + rowMaxDescent lr)).sum
            + ROW_GAP.scaled ctx * ((rows.length - 1 : ℕ) : ℚ) ∧
        ROW_GAP.scaled ctx = (1/2 : ℚ) * ctx.emSize ∧
        (∀ lr ∈ laid, lr ≠ [] →
          (lr.map MathRow.ascent).max? = some (rowMaxAscent lr) ∧
          (lr.map MathRow.descent).max? = some (rowMaxDescent lr))) ∧
    (∀ (ctx : MathContext) (rows : List (List Content)),
      rows = [] ∨ (∃ rest, rows = [] :: rest) →
      layout_mat_body ctx rows = (ctx, .ok (Frame.new Size.zero))) := by
  constructor
  · intro ctx rows laid m hm hne hrowlen hlaid hnn
    obtain ⟨r, rest, rfl⟩ : ∃ r rest, rows = r :: rest := by
      cases rows with
      | nil => exact absurd rfl hne
      | cons a b => exact ⟨a, b, rfl⟩
    have hr : r.length = m := hrowlen r (List.mem_cons_self r rest)
    have hAll : layoutAllRows (ctx.pushStyle ctx.style.for_denominator) m (r :: rest) = .ok laid :=
      layoutAllRows_of_laid _ _ hlaid (fun row hrow => le_of_eq (hrowlen row hrow))
    unfold layout_mat_body
    dsimp only
    simp only [List.head?_cons, Option.map_some', Option.getD_some, hr]
    have hcond : ¬ (m = 0 ∨ (r :: rest).length = 0) := by
      push_neg
      exact ⟨by omega, by simp⟩
    rw [if_neg hcond]
    rw [hAll]
    dsimp only
    refine ⟨_, _, rfl, ?_, ?_, ?_⟩
    · show (List.map _ (laid.map (fun lr => (rowMaxAscent lr, rowMaxDescent lr)))).sum + _ = _
      rw [List.map_map]
      rfl
    · unfold ROW_GAP Em.new Em.scaled
      ring
    · intro lr hmem hlrne
      exact ⟨rowMaxAscent_max? hlrne (fun mr hmr => (hnn lr hmem mr hmr).1),
        rowMaxDescent_max? hlrne (fun mr hmr => (hnn lr hmem mr hmr).2)⟩
  · intro ctx rows h
    rcases h with rfl | ⟨rest, rfl⟩
    · rfl
    · rfl

/-- C4 witness: the height formula applied to a concrete 1×1 matrix on
the sample context. -/
theorem mat_body_height_spec_witness :
    ∃ (ctx' : MathContext) (frame : Frame),
      layout_mat_body okCtx [[Content.empty]] = (ctx', .ok frame) ∧
      frame.height =
        ([[sampleRow]].map (fun lr => rowMaxAscent lr + rowMaxDescent lr)).sum
          + ROW_GAP.scaled okCtx * ((([[Content.empty]] : List (List Content)).length - 1 : ℕ) : ℚ) ∧
      ROW_GAP.scaled okCtx = (1/2 : ℚ) * okCtx.emSize ∧
      (∀ lr ∈ [[sampleRow]], lr ≠ [] →
        (lr.map MathRow.ascent).max? = some (rowMaxAscent lr) ∧
        (lr.map MathRow.descent).max? = some (rowMaxDescent lr)) :=
  mat_body_height_spec.1 okCtx [[Content.empty]] [[sampleRow]] 1
    (by norm_num) (by simp)
    (by intro row hrow; simp at hrow; rw [hrow]; rfl)
    (List.Forall₂.cons (List.Forall₂.cons rfl List.Forall₂.nil) List.Forall₂.nil)
    (by intro lr hlr mr hmr; simp at hlr; subst hlr; simp at hmr; subst hmr;
        constructor <;> norm_num [sampleRow])

theorem layoutAllRows_map_take (ctx : MathContext) (n : ℕ) :
    ∀ rows : List (List Content),
      layoutAllRows ctx n (rows.map (fun r => r.take n)) = layoutAllRows ctx n rows := by
  intro rows
  induction rows with
  | nil => rfl
  | cons r rest ih =>
    show layoutAllRows ctx n ((r.take n) :: rest.map (fun r => r.take n)) = _
    unfold layoutAllRows
    rw [List.take_take, min_self, ih]

/-- C10: `layout_mat_body` determines the column count solely from the
first row's length — its result is unchanged when every row is truncated
to that length, so cells of later rows beyond it are never laid out —
and a matrix whose first row is empty yields the zero-size frame even
when later rows are non-empty. -/
theorem mat_body_first_row_count :
    (∀ (ctx : MathContext) (rows : List (List Content)),
      layout_mat_body ctx rows =
        layout_mat_body ctx
          (rows.map (fun r => r.take ((rows.head?.map List.length).getD 0)))) ∧
    (∀ (ctx : MathContext) (rows rest : List (List Content)),
      rows = [] :: rest →
      layout_mat_body ctx rows = (ctx, .ok (Frame.new Size.zero))) := by
  constructor
  · intro ctx rows
    cases rows with
    | nil => rfl
    | cons r rest =>
      have hhead : ((((r :: rest) : List (List Content)).head?.map List.length).getD 0)
          = r.length := by simp
      rw [hhead]
      unfold layout_mat_body
      dsimp only
      simp only [List.head?_map, List.head?_cons, Option.map_some', Option.getD_some,
        List.length_take, min_self, List.length_map]
      rw [layoutAllRows_map_take]
  · intro ctx rows rest h
    subst h
    rfl

/-- C10 witness: a matrix whose first row is empty but whose second row
is not yields the zero-size frame. -/
theorem mat_body_first_row_count_witness :
    layout_mat_body okCtx ([] :: [[Content.empty]]) = (okCtx, .ok (Frame.new Size.zero)) :=
  mat_body_first_row_count.2 okCtx ([] :: [[Content.empty]]) [[Content.empty]] rfl
